import Mathlib

/-!
# Small_Shell (`src/main.c`): a shallow embedding and its properties

C strings are lists of characters (without the terminating NUL).  The globals
`status`, `bgPid` and `fgMode` are passed explicitly.  The table `bgPid` is a
map from indices to `int`s: the indices `0 .. 199` are the declared slots, an
index `≥ 200` stands for the memory word that follows the array, so that the
code's accesses can be followed even when they leave the array.  System calls
whose result depends on the environment (`waitpid`, `fork`, `getpid`) take their
result as a parameter; what the code does with the table, the system and the
terminal is recorded in a trace of events.  Memory that the code reads without
having written it (`childStatus`, `background[0]`) is a parameter as well.
Storage of a fixed size other than `bgPid` (`arg[512]`, the two 2049 byte
buffers of `expandVar`, `pid[10]`) is checked: a store past its end ends the run
with a result of its own.  Loops that are not bounded by their input take fuel.
-/

namespace SmallShell

/-- A C string. -/
abbrev Str := List Char

/-- The array `bgPid`, extended by the memory after it. -/
abbrev Table := Nat → Int

/-- Assignment `bgPid[i] = v`. -/
def Table.set (t : Table) (i : Nat) (v : Int) : Table :=
  fun j => if j = i then v else t j

/-- What the code does to the outside, in program order. -/
inductive Event where
  | read (i : Nat)
  | write (i : Nat) (v : Int)
  | waitpid (pid : Int)
  | kill (pid : Int)
  | print (text : Str)
  deriving DecidableEq, Repr

/-- `printf("%d", n)`. -/
def fmtInt (n : Int) : Str := (toString n).toList

/-! ## Wait status macros of `<sys/wait.h>` (glibc `bits/waitstatus.h`) -/

/-- `WTERMSIG(s)` is `s & 0x7f`. -/
def WTERMSIG (s : Int) : Int := s % 128

/-- `WIFEXITED(s)` is `WTERMSIG(s) == 0`. -/
def WIFEXITED (s : Int) : Bool := WTERMSIG s == 0

/-- `WEXITSTATUS(s)` is `(s & 0xff00) >> 8`. -/
def WEXITSTATUS (s : Int) : Int := (s / 256) % 256

/-- The wait status the kernel stores for a child that called `exit(code)`. -/
def exitedStatus (code : Nat) : Int := ((code % 256 : Nat) : Int) * 256

/-- The wait status the kernel stores for a child killed by signal `sig`
(`1 ≤ sig ≤ 126`), with or without a core dump. -/
def signaledStatus (sig : Nat) (core : Bool) : Int :=
  ((sig : Nat) : Int) + (if core then 128 else 0)

/-- The result of one `waitpid(pid, &childStatus, WNOHANG)`: the value returned
and, when the kernel wrote one, the wait status stored in `childStatus`. -/
structure WaitResult where
  ret : Int
  status : Option Int
  deriving DecidableEq, Repr

/-! ## `handle_SIGTSTP` -/

/-- `handle_SIGTSTP`: the new value of `fgMode` and the bytes written to
standard output (`write` is given the length 52, respectively 32, which
includes the terminating NUL of the literal). -/
def handle_SIGTSTP (fgMode : Int) : Int × Str :=
  if fgMode = 0 then
    (1, "Entering foreground-only mode (& is now ignored)\n: ".toList ++ [Char.ofNat 0])
  else
    (0, "Exiting foreground-only mode\n: ".toList ++ [Char.ofNat 0])

/-- The flag `fgMode` after `n` deliveries of the signal. -/
def deliverSIGTSTP : Nat → Int → Int
  | 0, fgMode => fgMode
  | n + 1, fgMode => deliverSIGTSTP n (handle_SIGTSTP fgMode).1

/-! ## Background completion notices -/

/-- The two `printf` calls shared by `checkBgPid` and `jobBackground`:
`"background pid %d is done : exit value %d\n"` when `WIFEXITED(childStatus)`,
`"background pid %d is done : terminated by signal %d\n"` otherwise. -/
def bgNotice (pid childStatus : Int) : Str :=
  if WIFEXITED childStatus then
    "background pid ".toList ++ fmtInt pid ++ " is done : exit value ".toList
      ++ fmtInt (WEXITSTATUS childStatus) ++ "\n".toList
  else
    "background pid ".toList ++ fmtInt pid ++ " is done : terminated by signal ".toList
      ++ fmtInt (WTERMSIG childStatus) ++ "\n".toList

/-! ## `checkBgPid` -/

/-- The state of the loop of `checkBgPid`. -/
structure PollState where
  bgPid : Table
  childStatus : Int
  trace : List Event

/-- One iteration of `for (int i = 0; i < 201; i++)` in `checkBgPid`.  `w` is
the result of this iteration's `waitpid(bgPid[i], &childStatus, WNOHANG)`.  The
call is made first; `bgPid[i] != 0` is evaluated only when it returned a
non-zero value. -/
def checkBgPidStep (w : Nat → WaitResult) (s : PollState) (i : Nat) : PollState :=
  let r := w i
  let cs := r.status.getD s.childStatus
  let t := s.trace ++ [Event.read i, Event.waitpid (s.bgPid i)]
  if r.ret ≠ 0 then
    if s.bgPid i ≠ 0 then
      { bgPid := s.bgPid.set i 0
        childStatus := cs
        trace := t ++ [Event.read i, Event.read i,
                       Event.print (bgNotice (s.bgPid i) cs), Event.write i 0] }
    else
      { bgPid := s.bgPid, childStatus := cs, trace := t ++ [Event.read i] }
  else
    { bgPid := s.bgPid, childStatus := cs, trace := t }

/-- `checkBgPid`: `childStatus0` is the content of the uninitialised local
`childStatus`, `w i` the result of the `waitpid` call of iteration `i`. -/
def checkBgPid (w : Nat → WaitResult) (bgPid : Table) (childStatus0 : Int) : PollState :=
  (List.range 201).foldl (checkBgPidStep w) ⟨bgPid, childStatus0, []⟩

/-! ## The command description (`struct input`) -/

/-- The fields of `struct input`: `arg` is the sequence `arg[0], arg[1], ...`
up to the first `NULL`, `inp` and `out` are `in` and `out` (`none` for `NULL`),
`background` is the byte `background[0]`. -/
structure Input where
  command : Str
  arg : List Str
  inp : Option Str
  out : Option Str
  background : Char
  deriving DecidableEq, Repr

/-- The loop that copies the arguments into `argv` in `jobForeground` and
`jobBackground`: `int i = 0; while (currCommand->arg[i] != NULL) { argv[i + 1] =
...; i++; }`.  Returns `argv` and the final value of `i`. -/
def buildArgv : List Str → List Str → Nat → List Str × Nat
  | [], argv, i => (argv, i)
  | a :: rest, argv, i => buildArgv rest (argv ++ [a]) (i + 1)

/-! ## `jobForeground` (parent branch) -/

/-- The parent branch of `jobForeground` after `waitpid(spawnPid, &childStatus,
0)` stored `childStatus`: the new value of the global `status` and the text
printed. -/
def jobForegroundParent (childStatus : Int) : Int × Str :=
  if WIFEXITED childStatus then
    (WEXITSTATUS childStatus, [])
  else
    (WTERMSIG childStatus,
      "terminated by signal ".toList ++ fmtInt (WTERMSIG childStatus) ++ "\n".toList)

/-! ## `jobBackground` (parent branch) -/

/-- The loop `int i = 0; while (bgPid[i] != 0) { i++; }` started at `i`; `none`
when the fuel runs out. -/
def scanFree (bgPid : Table) : Nat → Nat → Option Nat
  | 0, _ => none
  | fuel + 1, i => if bgPid i ≠ 0 then scanFree bgPid fuel (i + 1) else some i

/-- The parent branch (`default:`) of `jobBackground`.  The slot search runs in
a block of its own with its own `i`; the statements after that block use the
`i` of the function body, which the argument loop left at the number of
arguments.  `w` is the result of `waitpid(spawnPid, &childStatus, WNOHANG)`. -/
def jobBackgroundParent (fuel : Nat) (c : Input) (spawnPid : Int) (w : WaitResult)
    (childStatus0 : Int) (bgPid : Table) : Option PollState :=
  let i := (buildArgv c.arg [c.command] 0).2
  match scanFree bgPid fuel 0 with
  | none => none
  | some k =>
    let tbl := bgPid.set k spawnPid
    let cs := w.status.getD childStatus0
    let t := (List.range (k + 1)).map Event.read ++
      [Event.write k spawnPid, Event.waitpid spawnPid]
    if w.ret ≠ 0 then
      some { bgPid := tbl.set i 0
             childStatus := cs
             trace := t ++ [Event.read i, Event.print (bgNotice (tbl i) cs), Event.write i 0] }
    else
      some { bgPid := tbl, childStatus := cs, trace := t }

/-! ## `executeCommand` -/

/-- Which branch of `executeCommand` runs, with what the builtins do. -/
inductive Action where
  | exit (trace : List Event)
  | cd (path : Option Str)
  | status (output : Str)
  | jobBackground
  | jobForeground
  deriving DecidableEq, Repr

/-- The loop `for (int i = 0; i < 201; i++) { kill(bgPid[i], SIGTERM); }` of the
`exit` builtin. -/
def killLoop (bgPid : Table) : List Event :=
  (List.range 201).foldl (fun t i => t ++ [Event.read i, Event.kill (bgPid i)]) []

/-- The `status` builtin: `if (status > 1) printf("terminated by signal %d\n",
status); else printf("exit value %d\n", status);`. -/
def statusBuiltin (status : Int) : Str :=
  if status > 1 then
    "terminated by signal ".toList ++ fmtInt status ++ "\n".toList
  else
    "exit value ".toList ++ fmtInt status ++ "\n".toList

/-- `executeCommand`, as the branch taken. -/
def executeCommand (c : Input) (status : Int) (bgPid : Table) (fgMode : Int) : Action :=
  if c.command = "exit".toList then
    Action.exit (killLoop bgPid)
  else if c.command = "cd".toList then
    Action.cd c.arg.head?
  else if c.command = "status".toList then
    Action.status (statusBuiltin status)
  else if c.background = '&' ∧ fgMode = 0 then
    Action.jobBackground
  else
    Action.jobForeground

/-! ## `expandVar` -/

/-- `strtok_r(..., delim, &saveptr)` on the text `s` still to be scanned: skips
the leading delimiters, returns `none` (`NULL`) when nothing is left, otherwise
the token up to the next delimiter and the text after that delimiter. -/
def strtok_r (delim : List Char) (s : Str) : Option (Str × Str) :=
  match s.dropWhile (fun c => delim.contains c) with
  | [] => none
  | c :: r =>
    some ((c :: r).takeWhile (fun c => !delim.contains c),
          ((c :: r).dropWhile (fun c => !delim.contains c)).drop 1)

/-- The statement `token = strtok_r(NULL, delim, &saveptr1)`: the new `token`
and the new text to be scanned. -/
def nextToken (delim : List Char) (s : Str) : Option Str × Str :=
  match strtok_r delim s with
  | none => (none, [])
  | some (token, rest) => (some token, rest)

/-- The statements `if (token[len - 1] == '\n') token[len - 1] = '\0';`. -/
def stripNewline (token : Str) : Str :=
  if token.getLast? = some '\n' then token.dropLast else token

/-- How a run of `parseInput` ends. -/
inductive Parsed where
  | done (c : Input)
  | nullDeref
  | argOverflow
  | outOfFuel
  deriving DecidableEq, Repr

/-- The block `if ('<' == *token) { ... }` of the second loop; `none` when
`strlen` is applied to a `NULL` token. -/
def redirIn (c : Input) (token : Str) (s : Str) : Option (Input × Option Str × Str) :=
  if token.head? = some '<' then
    match strtok_r [' '] s with
    | none => none
    | some (t, r) => some ({ c with inp := some (stripNewline t) }, nextToken [' '] r)
  else
    some (c, some token, s)

/-- The block `if (token != NULL) { if ('>' == *token) { ... } }` of the second
loop; `none` when `strlen` is applied to a `NULL` token. -/
def redirOut (c : Input) (token : Option Str) (s : Str) :
    Option (Input × Option Str × Str) :=
  match token with
  | none => some (c, none, s)
  | some tk =>
    if tk.head? = some '>' then
      match strtok_r [' '] s with
      | none => none
      | some (t, r) => some ({ c with out := some (stripNewline t) }, nextToken [' '] r)
    else
      some (c, some tk, s)

/-- The block `if (token != NULL) { if (strcmp(token, "&\n") == 0) { ... } }` of
the second loop. -/
def redirBg (c : Input) (token : Option Str) (s : Str) : Input × Option Str × Str :=
  match token with
  | none => (c, none, s)
  | some tk =>
    if tk = "&\n".toList then
      ({ c with background := '&' }, nextToken [' ', '&', '\n'] s)
    else
      (c, some tk, s)

/-- The second loop of `parseInput`, `while (token != NULL) { ... }`. -/
def redirLoop : Nat → Input → Option Str → Str → Parsed
  | _, c, none, _ => Parsed.done c
  | 0, _, some _, _ => Parsed.outOfFuel
  | fuel + 1, c, some token, s =>
    match redirIn c token s with
    | none => Parsed.nullDeref
    | some (c1, t1, s1) =>
      match redirOut c1 t1 s1 with
      | none => Parsed.nullDeref
      | some (c2, t2, s2) =>
        match redirBg c2 t2 s2 with
        | (c3, t3, s3) => redirLoop fuel c3 t3 s3

/-- The first loop of `parseInput`, followed by the second.  `arg[i]` is the
slot after the arguments stored so far; storing at an index past `arg[511]` ends
the run with `argOverflow`. -/
def argLoop : Nat → Input → Option Str → Str → Parsed
  | _, c, none, _ => Parsed.done c
  | 0, _, some _, _ => Parsed.outOfFuel
  | fuel + 1, c, some token, s =>
    if token.head? = some '<' ∨ token.head? = some '>' ∨ token.head? = some '&' then
      if token.head? = some '&' then
        if token = "&\n".toList then
          Parsed.done { c with background := '&' }
        else if 512 ≤ c.arg.length then
          Parsed.argOverflow
        else
          match nextToken [' '] s with
          | (t, r) => argLoop fuel { c with arg := c.arg ++ [token] } t r
      else
        redirLoop (fuel + 1) c (some token) s
    else if 512 ≤ c.arg.length then
      Parsed.argOverflow
    else
      match nextToken [' '] s with
      | (t, r) => argLoop fuel { c with arg := c.arg ++ [stripNewline token] } t r

/-- `parseInput(buffer)`.  The structure comes from `malloc`; `command`, `arg`,
`in` and `out` are initialised, `background` is not: `background0` is the byte
the allocation holds at `background[0]`. -/
def parseInput (fuel : Nat) (background0 : Char) (buffer : Str) : Parsed :=
  match strtok_r [' '] buffer with
  | none => Parsed.nullDeref
  | some (token, s) =>
    match nextToken [' '] s with
    | (t, r) =>
      argLoop fuel
        { command := stripNewline token, arg := [], inp := none, out := none,
          background := background0 } t r

/-! ## Vocabulary of the statements -/

/-- The texts printed in a trace, in order. -/
def printed (t : List Event) : List Str :=
  t.filterMap (fun e => match e with
    | Event.print text => some text
    | _ => none)

/-- The content of `childStatus` after the first `n` `waitpid` calls of
`checkBgPid`: the status stored by the last call that stored one. -/
def statusAfter (w : Nat → WaitResult) (childStatus0 : Int) : Nat → Int
  | 0 => childStatus0
  | n + 1 => (w n).status.getD (statusAfter w childStatus0 n)

/-- The `waitpid` calls of a trace, in order. -/
def waited (t : List Event) : List Int :=
  t.filterMap (fun e => match e with
    | Event.waitpid pid => some pid
    | _ => none)

/-- A token of a well-formed line: not empty, without blank and newline. -/
def IsWord (t : Str) : Prop := t ≠ [] ∧ ' ' ∉ t ∧ '\n' ∉ t

/-- A token that the first loop of `parseInput` takes for an argument: its first
character is none of `<`, `>` and `&`. -/
def IsPlain (t : Str) : Prop :=
  t.head? ≠ some '<' ∧ t.head? ≠ some '>' ∧ t.head? ≠ some '&'

instance (t : Str) : Decidable (IsWord t) := by
  unfold IsWord
  infer_instance

instance (t : Str) : Decidable (IsPlain t) := by
  unfold IsPlain
  infer_instance

/-- The tokens separated by single blanks, the last one followed by a newline. -/
def joinTokens : List Str → Str
  | [] => []
  | [t] => t ++ ['\n']
  | t :: u :: ts => t ++ ' ' :: joinTokens (u :: ts)

/-- The tokens `[< in] [> out] [&]` of a line. -/
def redirTokens (inp out : Option Str) (amp : Bool) : List Str :=
  (match inp with
    | some f => ["<".toList, f]
    | none => []) ++
  (match out with
    | some f => [">".toList, f]
    | none => []) ++
  (if amp then ["&".toList] else [])

/-- The line `prog a1 ... an [< in] [> out] [&]` with its newline. -/
def wellFormedLine (prog : Str) (args : List Str) (inp out : Option Str) (amp : Bool) : Str :=
  joinTokens (prog :: (args ++ redirTokens inp out amp))

theorem deliverSIGTSTP_succ (n : Nat) (fgMode : Int) :
    deliverSIGTSTP (n + 1) fgMode = (handle_SIGTSTP (deliverSIGTSTP n fgMode)).1 := by
  induction n generalizing fgMode with
  | zero => rfl
  | succ n ih =>
    show deliverSIGTSTP (n + 1) (handle_SIGTSTP fgMode).1 = _
    rw [ih]
    rfl

theorem deliverSIGTSTP_zero_start (n : Nat) :
    deliverSIGTSTP n 0 = if n % 2 = 1 then 1 else 0 := by
  induction n with
  | zero => rfl
  | succ n ih =>
    rw [deliverSIGTSTP_succ, ih]
    by_cases h : n % 2 = 1
    · have h2 : ¬ (n + 1) % 2 = 1 := by omega
      simp [h, h2, handle_SIGTSTP]
    · have h2 : (n + 1) % 2 = 1 := by omega
      simp [h, h2, handle_SIGTSTP]

theorem checkBgPid_succ (w : Nat → WaitResult) (s : PollState) (n : Nat) :
    (List.range (n + 1)).foldl (checkBgPidStep w) s =
      checkBgPidStep w ((List.range n).foldl (checkBgPidStep w) s) n := by
  rw [List.range_succ, List.foldl_append]
  rfl

theorem printed_append (t u : List Event) : printed (t ++ u) = printed t ++ printed u := by
  simp [printed, List.filterMap_append]

theorem waited_append (t u : List Event) : waited (t ++ u) = waited t ++ waited u := by
  simp [waited, List.filterMap_append]

/-- The state of the loop of `checkBgPid` after the iterations `0 .. n - 1`: the
slots below `n` whose `waitpid` returned a non-zero value are empty, the other
slots are as before; one notice was printed for each occupied slot below `n`
whose `waitpid` returned a non-zero value; `waitpid` was called once for every
index below `n`, empty slots included. -/
theorem checkBgPid_loop (w : Nat → WaitResult) (bgPid : Table) (childStatus0 : Int) (n : Nat) :
    let s := (List.range n).foldl (checkBgPidStep w) ⟨bgPid, childStatus0, []⟩
    (∀ j, s.bgPid j = if j < n ∧ (w j).ret ≠ 0 then 0 else bgPid j) ∧
      s.childStatus = statusAfter w childStatus0 n ∧
      printed s.trace = (List.range n).filterMap (fun i =>
        if (w i).ret ≠ 0 ∧ bgPid i ≠ 0 then
          some (bgNotice (bgPid i) (statusAfter w childStatus0 (i + 1)))
        else none) ∧
      waited s.trace = (List.range n).map bgPid := by
  induction n with
  | zero =>
    refine ⟨fun j => ?_, rfl, rfl, rfl⟩
    simp
  | succ n ih =>
    simp only at ih ⊢
    rw [checkBgPid_succ]
    obtain ⟨h1, h2, h3, h4⟩ := ih
    generalize (List.range n).foldl (checkBgPidStep w) ⟨bgPid, childStatus0, []⟩ = s at h1 h2 h3 h4
    have hn : s.bgPid n = bgPid n := by rw [h1 n]; simp
    have hcs : (w n).status.getD s.childStatus = statusAfter w childStatus0 (n + 1) := by
      rw [h2]; rfl
    rw [List.range_succ, List.filterMap_append, List.map_append]
    unfold checkBgPidStep
    by_cases hr : (w n).ret ≠ 0
    · by_cases hz : s.bgPid n ≠ 0
      · have hz2 : bgPid n ≠ 0 := by rw [← hn]; exact hz
        rw [if_pos hr, if_pos hz]
        refine ⟨fun j => ?_, hcs, ?_, ?_⟩
        · show Table.set s.bgPid n 0 j = _
          unfold Table.set
          by_cases hj : j = n
          · subst hj
            rw [if_pos rfl, if_pos ⟨Nat.lt_succ_self _, hr⟩]
          · rw [if_neg hj, h1 j]
            have : (j < n + 1) ↔ (j < n) := by omega
            simp only [this]
        · simp only [printed_append, h3, hcs, hn]
          simp [printed, hr, hz2]
        · simp only [waited_append, h4, hn]
          simp [waited]
      · have hz2 : bgPid n = 0 := by rw [← hn]; exact not_not.1 hz
        rw [if_pos hr, if_neg hz]
        refine ⟨fun j => ?_, hcs, ?_, ?_⟩
        · show s.bgPid j = _
          rw [h1 j]
          by_cases hj : j = n
          · subst hj
            simp [hr, hz2]
          · have : (j < n + 1) ↔ (j < n) := by omega
            simp only [this]
        · simp only [printed_append, h3]
          simp [printed, hz2]
        · simp only [waited_append, h4, hn]
          simp [waited]
    · rw [if_neg hr]
      refine ⟨fun j => ?_, hcs, ?_, ?_⟩
      · show s.bgPid j = _
        rw [h1 j]
        by_cases hj : j = n
        · subst hj
          simp [hr]
        · have : (j < n + 1) ↔ (j < n) := by omega
          simp only [this]
      · simp only [printed_append, h3]
        simp [printed, hr]
      · simp only [waited_append, h4, hn]
        simp [waited]

/-- One pass of `checkBgPid`: every slot (index 200 included) whose `waitpid`
returned a non-zero value ends empty and the others are unchanged; the notices
printed are, in slot order, those of the occupied slots whose `waitpid` returned
a non-zero value, each with the slot's pid and the last status stored up to that
call; `waitpid` is called with the content of every slot, empty or not. -/
theorem checkBgPid_spec (w : Nat → WaitResult) (bgPid : Table) (childStatus0 : Int) :
    (∀ j, (checkBgPid w bgPid childStatus0).bgPid j =
        if j < 201 ∧ (w j).ret ≠ 0 then 0 else bgPid j) ∧
      printed (checkBgPid w bgPid childStatus0).trace = (List.range 201).filterMap (fun i =>
        if (w i).ret ≠ 0 ∧ bgPid i ≠ 0 then
          some (bgNotice (bgPid i) (statusAfter w childStatus0 (i + 1)))
        else none) ∧
      waited (checkBgPid w bgPid childStatus0).trace = (List.range 201).map bgPid := by
  have h := checkBgPid_loop w bgPid childStatus0 201
  exact ⟨h.1, h.2.2.1, h.2.2.2⟩

/-! ### What the parent branch of `jobBackground` does -/

theorem buildArgv_eq (args argv : List Str) (i : Nat) :
    buildArgv args argv i = (argv ++ args, i + args.length) := by
  induction args generalizing argv i with
  | nil => simp [buildArgv]
  | cons a rest ih =>
    rw [buildArgv, ih]
    simp only [List.append_assoc, List.singleton_append, List.length_cons]
    congr 1
    omega

theorem scanFree_eq (bgPid : Table) (k : Nat) (fuel i : Nat) (hfuel : k < i + fuel)
    (hik : i ≤ k) (hfull : ∀ j, i ≤ j → j < k → bgPid j ≠ 0) (hfree : bgPid k = 0) :
    scanFree bgPid fuel i = some k := by
  induction fuel generalizing i with
  | zero => omega
  | succ fuel ih =>
    unfold scanFree
    by_cases hi : i = k
    · subst hi
      rw [if_neg (by simp [hfree])]
    · have hlt : i < k := by omega
      rw [if_pos (hfull i (le_refl _) hlt)]
      exact ih (i + 1) (by omega) (by omega) (fun j h1 h2 => hfull j (by omega) h2)

/-- The parent branch of `jobBackground` when `k` is the first empty slot and
the immediate `waitpid` returns a non-zero value: the child is stored in slot
`k`; the notice names the content of the slot whose index is the number of
arguments of the command, and that slot is the one cleared. -/
theorem jobBackgroundParent_spec (fuel : Nat) (c : Input) (spawnPid : Int) (w : WaitResult)
    (childStatus0 : Int) (bgPid : Table) (k : Nat)
    (hfuel : k < fuel) (hfull : ∀ j, j < k → bgPid j ≠ 0) (hfree : bgPid k = 0)
    (hret : w.ret ≠ 0) :
    ∃ s, jobBackgroundParent fuel c spawnPid w childStatus0 bgPid = some s ∧
      s.bgPid = (bgPid.set k spawnPid).set c.arg.length 0 ∧
      printed s.trace =
        [bgNotice ((bgPid.set k spawnPid) c.arg.length) (w.status.getD childStatus0)] := by
  have hscan : scanFree bgPid fuel 0 = some k :=
    scanFree_eq bgPid k fuel 0 (by omega) (Nat.zero_le _) (fun j _ h => hfull j h) hfree
  unfold jobBackgroundParent
  rw [hscan, buildArgv_eq]
  simp only [Nat.zero_add]
  rw [if_pos hret]
  refine ⟨_, rfl, rfl, ?_⟩
  simp only [printed_append]
  have hreads : printed ((List.range (k + 1)).map Event.read) = [] := by
    simp [printed, List.filterMap_map, List.filterMap_eq_nil_iff]
  rw [hreads]
  rfl

/-- When the number of arguments equals the index of the first empty slot, the
immediate check of `jobBackground` names the child just spawned and leaves the
table as it was. -/
theorem jobBackgroundParent_same_slot (fuel : Nat) (c : Input) (spawnPid : Int)
    (w : WaitResult) (childStatus0 : Int) (bgPid : Table)
    (hfuel : c.arg.length < fuel) (hfull : ∀ j, j < c.arg.length → bgPid j ≠ 0)
    (hfree : bgPid c.arg.length = 0) (hret : w.ret ≠ 0) :
    ∃ s, jobBackgroundParent fuel c spawnPid w childStatus0 bgPid = some s ∧
      s.bgPid = bgPid ∧
      printed s.trace = [bgNotice spawnPid (w.status.getD childStatus0)] := by
  obtain ⟨s, h1, h2, h3⟩ := jobBackgroundParent_spec fuel c spawnPid w childStatus0 bgPid
    c.arg.length hfuel hfull hfree hret
  refine ⟨s, h1, ?_, ?_⟩
  · rw [h2]
    funext j
    unfold Table.set
    by_cases hj : j = c.arg.length
    · rw [if_pos hj, hj, hfree]
    · rw [if_neg hj, if_neg hj]
  · rw [h3]
    unfold Table.set
    rw [if_pos rfl]

/-! ### The `status` builtin after a foreground command -/

/-- After a foreground child that exited with code 0 or 1 the `status` builtin
prints `exit value N`; after a child killed by a signal `N` from 2 to 126 it
prints `terminated by signal N`. -/
theorem statusBuiltin_after_foreground (n : Nat) :
    (n ≤ 1 → statusBuiltin (jobForegroundParent (exitedStatus n)).1
        = "exit value ".toList ++ fmtInt n ++ "\n".toList) ∧
      (2 ≤ n → n ≤ 126 → ∀ core, statusBuiltin (jobForegroundParent (signaledStatus n core)).1
        = "terminated by signal ".toList ++ fmtInt n ++ "\n".toList) := by
  constructor
  · intro h
    interval_cases n <;> decide
  · intro h2 h126 core
    have hsig : WTERMSIG (signaledStatus n core) = (n : Int) := by
      unfold WTERMSIG signaledStatus
      cases core
      · simp only [Bool.false_eq_true, if_false]; omega
      · simp only [if_true]; omega
    have hne : WIFEXITED (signaledStatus n core) = false := by
      unfold WIFEXITED
      rw [hsig]
      simp only [beq_eq_false_iff_ne, ne_eq]
      omega
    unfold jobForegroundParent
    rw [hne]
    simp only [Bool.false_eq_true, if_false, hsig]
    unfold statusBuiltin
    rw [if_pos (by omega)]

/-! ### Texts printed by the background bookkeeping -/

theorem takeWhile_notBlank (t r : Str) (ht : ' ' ∉ t) :
    (t ++ ' ' :: r).takeWhile (fun c => !([' '].contains c)) = t ∧
      (t ++ ' ' :: r).dropWhile (fun c => !([' '].contains c)) = ' ' :: r := by
  induction t with
  | nil => simp [List.takeWhile, List.dropWhile]
  | cons c t ih =>
    have hc : c ≠ ' ' := fun h => ht (by rw [h]; exact List.mem_cons_self _ _)
    have ht2 : ' ' ∉ t := fun h => ht (List.mem_cons_of_mem _ h)
    obtain ⟨h1, h2⟩ := ih ht2
    have hp : (!([' '].contains c)) = true := by simp [hc]
    constructor
    · rw [List.cons_append, List.takeWhile_cons, hp]
      simp only [if_true]
      rw [h1]
    · rw [List.cons_append, List.dropWhile_cons, hp]
      simp only [if_true]
      rw [h2]

theorem takeWhile_notBlank_all (t : Str) (ht : ' ' ∉ t) :
    t.takeWhile (fun c => !([' '].contains c)) = t ∧
      t.dropWhile (fun c => !([' '].contains c)) = [] := by
  induction t with
  | nil => simp
  | cons c t ih =>
    have hc : c ≠ ' ' := fun h => ht (by rw [h]; exact List.mem_cons_self _ _)
    have ht2 : ' ' ∉ t := fun h => ht (List.mem_cons_of_mem _ h)
    obtain ⟨h1, h2⟩ := ih ht2
    have hp : (!([' '].contains c)) = true := by simp [hc]
    constructor
    · rw [List.takeWhile_cons, hp]
      simp only [if_true]
      rw [h1]
    · rw [List.dropWhile_cons, hp]
      simp only [if_true]
      rw [h2]

theorem strtok_r_nil (delim : List Char) : strtok_r delim [] = none := rfl

theorem nextToken_nil (delim : List Char) : nextToken delim [] = (none, []) := rfl

theorem strtok_r_word (t r : Str) (hne : t ≠ []) (ht : ' ' ∉ t) :
    strtok_r [' '] (t ++ ' ' :: r) = some (t, r) := by
  obtain ⟨c, t', rfl⟩ := List.exists_cons_of_ne_nil hne
  have hc : c ≠ ' ' := fun h => ht (by rw [h]; exact List.mem_cons_self _ _)
  obtain ⟨h1, h2⟩ := takeWhile_notBlank (c :: t') r ht
  unfold strtok_r
  have hd : (c :: t' ++ ' ' :: r).dropWhile (fun c => [' '].contains c) = c :: (t' ++ ' ' :: r) := by
    rw [List.cons_append, List.dropWhile_cons]
    simp [hc]
  rw [hd]
  simp only
  rw [← List.cons_append, h1, h2]
  rfl

theorem strtok_r_last (t : Str) (hne : t ≠ []) (ht : ' ' ∉ t) :
    strtok_r [' '] t = some (t, []) := by
  obtain ⟨c, t', rfl⟩ := List.exists_cons_of_ne_nil hne
  have hc : c ≠ ' ' := fun h => ht (by rw [h]; exact List.mem_cons_self _ _)
  obtain ⟨h1, h2⟩ := takeWhile_notBlank_all (c :: t') ht
  unfold strtok_r
  have hd : (c :: t').dropWhile (fun c => [' '].contains c) = c :: t' := by
    rw [List.dropWhile_cons]
    simp [hc]
  rw [hd]
  simp only
  rw [h1, h2]
  rfl

/-- The token of a line as `strtok_r` returns it: the last one carries the
newline. -/
theorem strtok_r_joinTokens (t : Str) (ts : List Str) (hne : t ≠ []) (ht : ' ' ∉ t) :
    strtok_r [' '] (joinTokens (t :: ts)) =
      some (if ts = [] then t ++ ['\n'] else t, joinTokens ts) := by
  cases ts with
  | nil =>
    have h2 : ' ' ∉ t ++ ['\n'] := by
      simp only [List.mem_append, List.mem_singleton, not_or]
      exact ⟨ht, by decide⟩
    simp only [joinTokens, if_true]
    exact strtok_r_last _ (by simp) h2
  | cons u us =>
    simp only [joinTokens, if_false, reduceCtorEq]
    exact strtok_r_word _ _ hne ht

theorem nextToken_joinTokens (t : Str) (ts : List Str) (hne : t ≠ []) (ht : ' ' ∉ t) :
    nextToken [' '] (joinTokens (t :: ts)) =
      (some (if ts = [] then t ++ ['\n'] else t), joinTokens ts) := by
  unfold nextToken
  rw [strtok_r_joinTokens t ts hne ht]

theorem stripNewline_of_word (t : Str) (hnl : '\n' ∉ t) (ts : List Str) :
    stripNewline (if ts = [] then t ++ ['\n'] else t) = t := by
  unfold stripNewline
  by_cases h : ts = []
  · simp [h]
  · rw [if_neg h]
    have hl : t.getLast? ≠ some '\n' := by
      intro hl
      exact hnl (List.mem_of_getLast?_eq_some hl)
    rw [if_neg hl]

theorem head?_of_word (t : Str) (hne : t ≠ []) (ts : List Str) :
    (if ts = [] then t ++ ['\n'] else t).head? = t.head? := by
  obtain ⟨c, t', rfl⟩ := List.exists_cons_of_ne_nil hne
  by_cases h : ts = [] <;> simp [h]

/-! ### `parseInput` on a well-formed line -/

theorem argLoop_args (args tl : List Str) (c : Input) (fuel : Nat)
    (hargs : ∀ a ∈ args, IsWord a ∧ IsPlain a) (hlen : c.arg.length + args.length ≤ 512) :
    argLoop (fuel + args.length) c (nextToken [' '] (joinTokens (args ++ tl))).1
        (nextToken [' '] (joinTokens (args ++ tl))).2 =
      argLoop fuel { c with arg := c.arg ++ args } (nextToken [' '] (joinTokens tl)).1
        (nextToken [' '] (joinTokens tl)).2 := by
  induction args generalizing c with
  | nil => simp
  | cons a args ih =>
    obtain ⟨⟨hne, hbl, hnl⟩, hp1, hp2, hp3⟩ := hargs a (List.mem_cons_self _ _)
    have hargs2 : ∀ x ∈ args, IsWord x ∧ IsPlain x :=
      fun x hx => hargs x (List.mem_cons_of_mem _ hx)
    simp only [List.length_cons] at hlen
    rw [List.cons_append, nextToken_joinTokens a _ hne hbl]
    show argLoop ((fuel + args.length) + 1) c
      (some (if args ++ tl = [] then a ++ ['\n'] else a)) (joinTokens (args ++ tl)) = _
    rw [argLoop]
    rw [head?_of_word a hne, if_neg (by simp [hp1, hp2, hp3]), if_neg (by omega),
      stripNewline_of_word a hnl]
    have h := ih { c with arg := c.arg ++ [a] }
      hargs2 (by simp only [List.length_append, List.length_singleton]; omega)
    simp only [List.append_assoc, List.singleton_append] at h
    exact h

theorem stripNewline_word_nl (t : Str) : stripNewline (t ++ ['\n']) = t := by
  simp [stripNewline]

theorem stripNewline_word (t : Str) (hnl : '\n' ∉ t) : stripNewline t = t := by
  have h := stripNewline_of_word t hnl [[]]
  simpa using h

theorem redirLoop_none (fuel : Nat) (c : Input) (s : Str) :
    redirLoop fuel c none s = Parsed.done c := by
  cases fuel <;> rfl

/-- The last block of an iteration of the second loop, at the end of the line
or in front of its final `&`. -/
theorem redir_stage_bg (amp : Bool) (c : Input) (fuel : Nat) :
    (match redirBg c (nextToken [' '] (joinTokens (if amp = true then ["&".toList] else []))).1
        (nextToken [' '] (joinTokens (if amp = true then ["&".toList] else []))).2 with
      | (c3, t3, s3) => redirLoop fuel c3 t3 s3) =
      Parsed.done { c with background := if amp = true then '&' else c.background } := by
  cases amp with
  | false =>
    show redirLoop fuel c none [] = _
    rw [redirLoop_none]
    rfl
  | true =>
    show redirLoop fuel { c with background := '&' } none [] = _
    rw [redirLoop_none]
    rfl

/-- The last two blocks of an iteration of the second loop, in front of `[> out]
[&]`. -/
theorem redir_stage_out (out : Option Str) (amp : Bool) (c : Input) (fuel : Nat)
    (hout : ∀ f, out = some f → IsWord f) :
    (match redirOut c
        (nextToken [' '] (joinTokens (redirTokens none out amp))).1
        (nextToken [' '] (joinTokens (redirTokens none out amp))).2 with
      | none => Parsed.nullDeref
      | some (c2, t2, s2) =>
        match redirBg c2 t2 s2 with
        | (c3, t3, s3) => redirLoop fuel c3 t3 s3) =
      Parsed.done
        { c with
          out := (match out with
            | some f => some f
            | none => c.out)
          background := if amp = true then '&' else c.background } := by
  cases out with
  | none =>
    have h := redir_stage_bg amp c fuel
    cases amp with
    | false => exact h
    | true => exact h
  | some g =>
    obtain ⟨gne, gbl, gnl⟩ := hout g rfl
    have hgt : (">".toList ≠ [] ∧ ' ' ∉ ">".toList) := by decide
    have htl : redirTokens none (some g) amp =
        ">".toList :: g :: (if amp = true then ["&".toList] else []) := rfl
    rw [htl, nextToken_joinTokens _ _ hgt.1 hgt.2, if_neg (by simp)]
    show (match (match strtok_r [' '] (joinTokens (g :: (if amp = true then ["&".toList] else [])))
        with
        | none => none
        | some (t, r) => some ({ c with out := some (stripNewline t) }, nextToken [' '] r)) with
      | none => Parsed.nullDeref
      | some (c2, t2, s2) =>
        match redirBg c2 t2 s2 with
        | (c3, t3, s3) => redirLoop fuel c3 t3 s3) = _
    rw [strtok_r_joinTokens g _ gne gbl]
    simp only
    rw [stripNewline_of_word g gnl]
    exact redir_stage_bg amp { c with out := some g } fuel

/-- One iteration of the second loop entered at `> out [&]`. -/
theorem redirLoop_out (g : Str) (amp : Bool) (c : Input) (fuel : Nat) (hg : IsWord g) :
    redirLoop (fuel + 1) c (some ">".toList)
        (joinTokens (g :: (if amp = true then ["&".toList] else []))) =
      Parsed.done
        { c with
          out := some g
          background := if amp = true then '&' else c.background } := by
  have hgt : (">".toList ≠ [] ∧ ' ' ∉ ">".toList) := by decide
  have h := redir_stage_out (some g) amp c fuel (fun f hf => by cases hf; exact hg)
  have htl : redirTokens none (some g) amp =
      ">".toList :: g :: (if amp = true then ["&".toList] else []) := rfl
  rw [htl, nextToken_joinTokens _ _ hgt.1 hgt.2, if_neg (by simp)] at h
  rw [redirLoop]
  exact h

/-- One iteration of the second loop entered at `< in [> out] [&]`. -/
theorem redirLoop_in (f : Str) (out : Option Str) (amp : Bool) (c : Input) (fuel : Nat)
    (hf : IsWord f) (hout : ∀ g, out = some g → IsWord g) :
    redirLoop (fuel + 1) c (some "<".toList) (joinTokens (f :: redirTokens none out amp)) =
      Parsed.done
        { c with
          inp := some f
          out := (match out with
            | some g => some g
            | none => c.out)
          background := if amp = true then '&' else c.background } := by
  obtain ⟨fne, fbl, fnl⟩ := hf
  rw [redirLoop]
  show (match (match strtok_r [' '] (joinTokens (f :: redirTokens none out amp)) with
      | none => none
      | some (t, r) => some ({ c with inp := some (stripNewline t) }, nextToken [' '] r)) with
    | none => Parsed.nullDeref
    | some (c1, t1, s1) =>
      match redirOut c1 t1 s1 with
      | none => Parsed.nullDeref
      | some (c2, t2, s2) =>
        match redirBg c2 t2 s2 with
        | (c3, t3, s3) => redirLoop fuel c3 t3 s3) = _
  rw [strtok_r_joinTokens f _ fne fbl]
  simp only
  rw [stripNewline_of_word f fnl]
  exact redir_stage_out out amp { c with inp := some f } fuel hout

/-- The two loops of `parseInput` entered in front of `[< in] [> out] [&]`. -/
theorem argLoop_redir (inp out : Option Str) (amp : Bool) (c : Input) (fuel : Nat)
    (hin : ∀ f, inp = some f → IsWord f) (hout : ∀ f, out = some f → IsWord f) :
    argLoop (fuel + 1) c (nextToken [' '] (joinTokens (redirTokens inp out amp))).1
        (nextToken [' '] (joinTokens (redirTokens inp out amp))).2 =
      Parsed.done
        { c with
          inp := (match inp with
            | some f => some f
            | none => c.inp)
          out := (match out with
            | some f => some f
            | none => c.out)
          background := if amp = true then '&' else c.background } := by
  have hlt : ("<".toList ≠ [] ∧ ' ' ∉ "<".toList) := by decide
  have hgt : (">".toList ≠ [] ∧ ' ' ∉ ">".toList) := by decide
  cases inp with
  | some f =>
    have htl : redirTokens (some f) out amp =
        "<".toList :: f :: redirTokens none out amp := rfl
    rw [htl, nextToken_joinTokens _ _ hlt.1 hlt.2, if_neg (by simp)]
    show redirLoop (fuel + 1) c (some "<".toList) (joinTokens (f :: redirTokens none out amp))
      = _
    exact redirLoop_in f out amp c fuel (hin f rfl) hout
  | none =>
    cases out with
    | some g =>
      have htl : redirTokens none (some g) amp =
          ">".toList :: g :: (if amp = true then ["&".toList] else []) := rfl
      rw [htl, nextToken_joinTokens _ _ hgt.1 hgt.2, if_neg (by simp)]
      show redirLoop (fuel + 1) c (some ">".toList)
        (joinTokens (g :: (if amp = true then ["&".toList] else []))) = _
      exact redirLoop_out g amp c fuel (hout g rfl)
    | none =>
      cases amp with
      | false => rfl
      | true => rfl

/-- On a well-formed line `prog a1 ... an [< in] [> out] [&]` with fewer than 512
arguments, `parseInput` returns the program name, the arguments in order and the
two paths; `background[0]` is `&` when the line ends in `&` and is otherwise the
byte the allocation held. -/
theorem parseInput_wellFormed (prog : Str) (args : List Str) (inp out : Option Str)
    (amp : Bool) (background0 : Char) (fuel : Nat)
    (hprog : IsWord prog) (hargs : ∀ a ∈ args, IsWord a ∧ IsPlain a)
    (hin : ∀ f, inp = some f → IsWord f) (hout : ∀ f, out = some f → IsWord f)
    (hn : args.length < 512) (hfuel : args.length < fuel) :
    parseInput fuel background0 (wellFormedLine prog args inp out amp) =
      Parsed.done
        { command := prog, arg := args, inp := inp, out := out,
          background := if amp = true then '&' else background0 } := by
  obtain ⟨pne, pbl, pnl⟩ := hprog
  obtain ⟨k, rfl⟩ : ∃ k, fuel = (k + 1) + args.length := ⟨fuel - args.length - 1, by omega⟩
  unfold parseInput wellFormedLine
  rw [strtok_r_joinTokens prog _ pne pbl]
  simp only
  rw [stripNewline_of_word prog pnl]
  have h1 := argLoop_args args (redirTokens inp out amp)
    { command := prog, arg := [], inp := none, out := none, background := background0 }
    (k + 1) hargs (by simp only [List.length_nil]; omega)
  have h2 := argLoop_redir inp out amp
    { command := prog, arg := [] ++ args, inp := none, out := none, background := background0 }
    k hin hout
  rw [h2] at h1
  rw [h1]
  cases inp <;> cases out <;> simp

/-- The line `ls -l a < in > out &`, written as a well-formed line, and its
command description. -/
theorem parseInput_wellFormed_example :
    wellFormedLine "ls".toList ["-l".toList, "a".toList] (some "in".toList)
        (some "out".toList) true = "ls -l a < in > out &\n".toList ∧
      parseInput 3 'x' (wellFormedLine "ls".toList ["-l".toList, "a".toList]
        (some "in".toList) (some "out".toList) true) =
        Parsed.done
          { command := "ls".toList, arg := ["-l".toList, "a".toList],
            inp := some "in".toList, out := some "out".toList,
            background := if true = true then '&' else 'x' } :=
  ⟨by decide,
    parseInput_wellFormed "ls".toList ["-l".toList, "a".toList] (some "in".toList)
      (some "out".toList) true 'x' 3 (by decide) (by decide)
      (fun f h => by cases h; decide) (fun f h => by cases h; decide) (by decide) (by decide)⟩

/-! ### The second loop of `parseInput` on a token it does not consume -/

theorem redirLoop_stuck (fuel : Nat) (c : Input) (token s : Str)
    (h1 : token.head? ≠ some '<') (h2 : token.head? ≠ some '>')
    (h3 : token ≠ "&\n".toList) :
    redirLoop fuel c (some token) s = Parsed.outOfFuel := by
  induction fuel with
  | zero => rfl
  | succ fuel ih =>
    unfold redirLoop
    simp only [redirIn, h1, if_false, redirOut, h2, redirBg, h3]
    exact ih

/-! ## Claims -/

/-- Claim C6: starting with foreground-only mode off, after `n` deliveries of the
suspend signal to `handle_SIGTSTP` the mode is on exactly when `n` is odd, and
two further deliveries give the flag the value it had. -/
theorem handle_SIGTSTP_toggles (n : Nat) :
    (deliverSIGTSTP n 0 ≠ 0 ↔ n % 2 = 1) ∧
      (handle_SIGTSTP (deliverSIGTSTP n 0)).1 ≠ deliverSIGTSTP n 0 ∧
      deliverSIGTSTP (n + 2) 0 = deliverSIGTSTP n 0 := by
  have h2 : (n + 2) % 2 = n % 2 := by omega
  refine ⟨?_, ?_, ?_⟩
  · rw [deliverSIGTSTP_zero_start]
    by_cases h : n % 2 = 1 <;> simp [h]
  · rw [deliverSIGTSTP_zero_start]
    by_cases h : n % 2 = 1 <;> simp [h, handle_SIGTSTP]
  · rw [deliverSIGTSTP_zero_start, deliverSIGTSTP_zero_start, h2]

/-- Claim C4: a command whose name is none of `exit`, `cd` and `status` is run
through `jobBackground` exactly when its background flag is `&` and `fgMode` is
`0`, and through `jobForeground` otherwise; with `fgMode` on it is always run
through `jobForeground`. -/
theorem executeCommand_routes (c : Input) (status : Int) (bgPid : Table) (fgMode : Int)
    (hexit : c.command ≠ "exit".toList) (hcd : c.command ≠ "cd".toList)
    (hstatus : c.command ≠ "status".toList) :
    (executeCommand c status bgPid fgMode = Action.jobBackground ↔
        (c.background = '&' ∧ fgMode = 0)) ∧
      (¬ (c.background = '&' ∧ fgMode = 0) →
        executeCommand c status bgPid fgMode = Action.jobForeground) ∧
      (fgMode ≠ 0 → executeCommand c status bgPid fgMode = Action.jobForeground) := by
  by_cases h : c.background = '&' ∧ fgMode = 0
  · refine ⟨?_, ?_, ?_⟩
    · have hbg : executeCommand c status bgPid fgMode = Action.jobBackground := by
        unfold executeCommand
        rw [if_neg hexit, if_neg hcd, if_neg hstatus, if_pos h]
      rw [hbg]
      exact ⟨fun _ => h, fun _ => rfl⟩
    · intro h2; exact absurd h h2
    · intro h2; exact absurd h.2 h2
  · have hfg : executeCommand c status bgPid fgMode = Action.jobForeground := by
      unfold executeCommand
      rw [if_neg hexit, if_neg hcd, if_neg hstatus, if_neg h]
    refine ⟨?_, ?_, ?_⟩
    · rw [hfg]
      constructor
      · intro h2; cases h2
      · intro h2; exact absurd h2 h
    · intro _; exact hfg
    · intro _; exact hfg

/-- Witness of claim C4: `sleep 5 &` while foreground-only mode is on. -/
theorem executeCommand_routes_witness :
    (executeCommand ⟨"sleep".toList, ["5".toList], none, none, '&'⟩ 0 (fun _ => 0) 1
        = Action.jobBackground ↔ ('&' = '&' ∧ (1 : Int) = 0)) ∧
      (¬ ('&' = '&' ∧ (1 : Int) = 0) →
        executeCommand ⟨"sleep".toList, ["5".toList], none, none, '&'⟩ 0 (fun _ => 0) 1
          = Action.jobForeground) ∧
      ((1 : Int) ≠ 0 →
        executeCommand ⟨"sleep".toList, ["5".toList], none, none, '&'⟩ 0 (fun _ => 0) 1
          = Action.jobForeground) :=
  executeCommand_routes ⟨"sleep".toList, ["5".toList], none, none, '&'⟩ 0 (fun _ => 0) 1
    (by decide) (by decide) (by decide)

/-- Claim C2 at the failing input: a foreground child that exits with code 2
leaves `status = 2`, and the `status` builtin then prints `terminated by signal
2`, not `exit value 2`; a child killed by signal 1 makes it print `exit value
1`. -/
theorem status_confuses_exit_and_signal :
    WIFEXITED (exitedStatus 2) = true ∧
      (jobForegroundParent (exitedStatus 2)).1 = 2 ∧
      statusBuiltin (jobForegroundParent (exitedStatus 2)).1
        = "terminated by signal 2\n".toList ∧
      WIFEXITED (signaledStatus 1 false) = false ∧
      (jobForegroundParent (signaledStatus 1 false)).1 = 1 ∧
      statusBuiltin (jobForegroundParent (signaledStatus 1 false)).1
        = "exit value 1\n".toList := by
  decide

/-- Claim C1 at the failing input: with an empty table and the command `nosuch x
&` (one argument), child 4242 is stored in slot 0, but the notice names
`bgPid[1]`, which is `0`, slot 1 is the one cleared, and slot 0 still holds
4242. -/
theorem jobBackground_reports_wrong_slot :
    (jobBackgroundParent 200 ⟨"nosuch".toList, ["x".toList], none, none, '&'⟩ 4242
        ⟨4242, some (exitedStatus 1)⟩ 0 (fun _ => 0)).map
        (fun s => (s.bgPid 0, s.bgPid 1, s.trace)) =
      some (4242, 0,
        [Event.read 0, Event.write 0 4242, Event.waitpid 4242, Event.read 1,
         Event.print "background pid 0 is done : exit value 1\n".toList,
         Event.write 1 0]) := by
  decide

/-- Claim C3 at the failing input: on a table whose slots are all empty, whatever
the `waitpid` calls return, one pass of `checkBgPid` calls `waitpid(0,
&childStatus, WNOHANG)` 201 times, once for every index from 0 to 200, and
prints nothing. -/
theorem checkBgPid_waits_on_empty_slots (w : Nat → WaitResult) (childStatus0 : Int) :
    waited (checkBgPid w (fun _ => 0) childStatus0).trace = List.replicate 201 0 ∧
      printed (checkBgPid w (fun _ => 0) childStatus0).trace = [] := by
  obtain ⟨_, h2, h3⟩ := checkBgPid_spec w (fun _ => 0) childStatus0
  constructor
  · rw [h3]
    exact List.eq_replicate_iff.2 ⟨by rw [List.length_map, List.length_range], fun b hb => by
      obtain ⟨_, _, rfl⟩ := List.mem_map.1 hb
      rfl⟩
  · rw [h2]
    simp

/-- Claim C10 at the failing input: on the line `ls < in extra` the second loop of
`parseInput` never advances past the token `extra`, so whatever the fuel no
command description is returned. -/
theorem parseInput_never_returns (fuel : Nat) (background0 : Char) :
    parseInput fuel background0 "ls < in extra\n".toList = Parsed.outOfFuel := by
  have h0 : parseInput fuel background0 "ls < in extra\n".toList =
      argLoop fuel ⟨"ls".toList, [], none, none, background0⟩ (some "<".toList)
        "in extra\n".toList := rfl
  rw [h0]
  cases fuel with
  | zero => rfl
  | succ fuel =>
    have h1 : argLoop (fuel + 1) ⟨"ls".toList, [], none, none, background0⟩
        (some "<".toList) "in extra\n".toList =
        redirLoop fuel ⟨"ls".toList, [], some "in".toList, none, background0⟩
          (some "extra\n".toList) [] := rfl
    rw [h1]
    exact redirLoop_stuck fuel _ _ _ (by decide) (by decide) (by decide)

/-- Claim C7 at the failing input: the line `ls` has no `&`, yet when the
allocated structure holds `&` in `background[0]` the command description that
`parseInput` returns has its background flag set. -/
theorem parseInput_background_uninitialised (fuel : Nat) :
    parseInput fuel '&' "ls\n".toList =
      Parsed.done ⟨"ls".toList, [], none, none, '&'⟩ := by
  cases fuel <;> rfl

end SmallShell
